import Mathlib

/-!
Verification of the goko point-cloud layer: the glued (composite) point
cloud, the label summary aggregators, and the bounded coverage-index
plugin.  Definitions are shallow embeddings of the Rust source
(`pointcloud/src/glued_data_cloud.rs`, `pointcloud/src/summaries/mod.rs`,
`goko/src/plugins/utils.rs`); machine integers (`usize`) are modelled as
`Nat` (no overflow is relevant at the sizes involved), `f32` components
are modelled as exact rationals, and fallible operations return `Except`.
-/

set_option maxHeartbeats 1000000

/-- Shallow embedding of `PointCloudError`.  Only the `DataAccessError`
variant (an offending index plus a human-readable reason) is exercised by
the code under study. -/
inductive PointCloudError where
  | DataAccessError (index : Nat) (reason : String)
  deriving DecidableEq, Repr

/-- Modelled from the spec: a physical source satisfying the Point Cloud /
Labeled Cloud capability (the concrete backing sources such as `DataRam`
live outside the analysed sources).  A source is a fixed list of points, a
parallel list of optional labels, and a declared dimension; `point`/`label`
succeed exactly on in-range local indices and otherwise return a
data-access error, as the capability contract requires. -/
structure DataSource (α β : Type) where
  points : List α
  labels : List (Option β)
  dim : Nat
  deriving Repr

namespace DataSource

variable {α β : Type}

/-- Number of points in the source (`len()` of the Point Cloud capability). -/
def len (s : DataSource α β) : Nat := s.points.length

/-- Whether the source reports itself empty. -/
def is_empty (s : DataSource α β) : Bool := s.points.isEmpty

/-- Reading the source directly at a local index: in-range succeeds,
out-of-range is a data-access error. -/
def point (s : DataSource α β) (j : Nat) : Except PointCloudError α :=
  match s.points.get? j with
  | some p => .ok p
  | none => .error (.DataAccessError j "point out of range")

/-- Reading the source's label directly at a local index. -/
def label (s : DataSource α β) (j : Nat) : Except PointCloudError (Option β) :=
  match s.labels.get? j with
  | some l => .ok l
  | none => .error (.DataAccessError j "label out of range")

end DataSource

/-- Shallow embedding of `HashGluedCloud`: the address map (a `HashMap`
from global point index to (source ordinal, local index)) is modelled as
the list of inserted key/value entries, and `data_sources` is the owned
list of sources. -/
structure HashGluedCloud (α β : Type) where
  addresses : List (Nat × Nat × Nat)
  data_sources : List (DataSource α β)

/-- Lookup in the modelled address map: the first entry with the given key
(keys inserted by the constructor are pairwise distinct, so this agrees
with `HashMap::get`). -/
def hashGet : List (Nat × Nat × Nat) → Nat → Option (Nat × Nat)
  | [], _ => none
  | (k, v) :: rest, pn => if pn = k then some v else hashGet rest pn

namespace HashGluedCloud

variable {α β : Type}

/-- Embedding of `HashGluedCloud::new`: iterate the sources in supplied
order; for each source `i` and each local index `j` in `0..source.len()`
insert `pi ↦ (i, j)` and increment the running global index `pi`. -/
def new (ds : List (DataSource α β)) : HashGluedCloud α β :=
  { addresses :=
      (ds.enum.foldl
        (fun st isrc =>
          (List.range isrc.2.len).foldl
            (fun st2 j => (st2.1 ++ [(st2.2, isrc.1, j)], st2.2 + 1)) st)
        ([], 0)).1,
    data_sources := ds }

/-- Embedding of `HashGluedCloud::get_address`: resolve a global index
through the address map, or fail with a `DataAccessError` carrying the
offending index and the reason string from the source. -/
def get_address (c : HashGluedCloud α β) (pn : Nat) :
    Except PointCloudError (Nat × Nat) :=
  match hashGet c.addresses pn with
  | some ij => .ok ij
  | none => .error (.DataAccessError pn "address not found")

/-- Reading `data_sources[i]`: the Rust slice indexing panics when `i` is
out of range; the constructor only ever stores in-range ordinals, so the
error value chosen for that unreachable branch is immaterial. -/
def source_point (c : HashGluedCloud α β) (i j : Nat) :
    Except PointCloudError α :=
  match c.data_sources.get? i with
  | some src => src.point j
  | none => .error (.DataAccessError i "source ordinal out of range")

/-- Embedding of `HashGluedCloud::point`: resolve, then delegate to the
resolved source at the resolved local index. -/
def point (c : HashGluedCloud α β) (pn : Nat) : Except PointCloudError α :=
  match c.get_address pn with
  | .ok (i, j) => c.source_point i j
  | .error e => .error e

/-- Embedding of `HashGluedCloud::len`: fold the source lengths. -/
def len (c : HashGluedCloud α β) : Nat :=
  c.data_sources.foldl (fun acc mm => acc + mm.len) 0

/-- Embedding of `HashGluedCloud::is_empty`: `false` for zero sources,
otherwise every source must report empty. -/
def is_empty (c : HashGluedCloud α β) : Bool :=
  if c.data_sources.isEmpty then false
  else c.data_sources.all (fun m => m.is_empty)

/-- Embedding of `HashGluedCloud::reference_indexes`: the keys of the
address map. -/
def reference_indexes (c : HashGluedCloud α β) : List Nat :=
  c.addresses.map (fun kv => kv.1)

/-- Embedding of `HashGluedCloud::dim`: `data_sources[0].dim()`.  Rust
indexing panics on an empty source list, modelled as `none`. -/
def dim (c : HashGluedCloud α β) : Option Nat :=
  (c.data_sources.get? 0).map (fun s => s.dim)

/-- Reading `data_sources[i].label(j)` (Rust panics on an out-of-range
ordinal, unreachable for constructed clouds). -/
def source_label (c : HashGluedCloud α β) (i j : Nat) :
    Except PointCloudError (Option β) :=
  match c.data_sources.get? i with
  | some src => src.label j
  | none => .error (.DataAccessError i "source ordinal out of range")

/-- Embedding of `HashGluedCloud::label`: resolve, then delegate. -/
def label (c : HashGluedCloud α β) (pn : Nat) :
    Except PointCloudError (Option β) :=
  match c.get_address pn with
  | .ok (i, j) => c.source_label i j
  | .error e => .error e

/-- Embedding of the loop of `HashGluedCloud::label_summary`: starting from
an accumulated summary, resolve each queried index (the `?` operator aborts
with the resolution error) and feed the delegated label lookup result to
the summary's `add`.  The summary type is kept generic, as in the Rust
(`Self::LabelSummary`). -/
def label_summary_loop {S : Type} (c : HashGluedCloud α β)
    (addFn : S → Except PointCloudError (Option β) → S) :
    List Nat → S → Except PointCloudError S
  | [], summary => .ok summary
  | pn :: rest, summary =>
    match c.get_address pn with
    | .ok (i, j) => c.label_summary_loop addFn rest (addFn summary (c.source_label i j))
    | .error e => .error e

/-- Embedding of `HashGluedCloud::label_summary`: one fresh summary
(`default`), fed each resolved label lookup result in input order. -/
def label_summary {S : Type} (c : HashGluedCloud α β) (dflt : S)
    (addFn : S → Except PointCloudError (Option β) → S) (pns : List Nat) :
    Except PointCloudError S :=
  c.label_summary_loop addFn pns dflt

end HashGluedCloud

/-- Total length of a list of sources (specification-side sum used to state
theorems about `HashGluedCloud.len`). -/
def sumLen {α β : Type} : List (DataSource α β) → Nat
  | [] => 0
  | s :: rest => s.len + sumLen rest

/-- Global index of the first point of source `k` under in-order
concatenation: the sum of the lengths of the sources before it. -/
def offsetOf {α β : Type} : List (DataSource α β) → Nat → Nat
  | _, 0 => 0
  | [], _ + 1 => 0
  | s :: rest, k + 1 => s.len + offsetOf rest k

/-- Specification-side resolution of a global index against in-order
concatenation: skip whole sources while the index is at least the source
length. -/
def resolveAt {α β : Type} : List (DataSource α β) → Nat → Option (Nat × Nat)
  | [], _ => none
  | s :: rest, pn =>
    if pn < s.len then some (0, pn)
    else (resolveAt rest (pn - s.len)).map (fun r => (r.1 + 1, r.2))

/-- The address entries contributed by a list of sources whose first source
has ordinal `k` and whose first point receives global index `pi`. -/
def addrChunks {α β : Type} : List (DataSource α β) → Nat → Nat → List (Nat × Nat × Nat)
  | [], _, _ => []
  | s :: rest, k, pi =>
    (List.range s.len).map (fun j => (pi + j, k, j)) ++ addrChunks rest (k + 1) (pi + s.len)

section AddressCharacterization

variable {α β : Type}

/-- The inner loop of the constructor: appending one entry per local index
and advancing the running global index. -/
theorem inner_fold (i : Nat) : ∀ (n : Nat) (acc : List (Nat × Nat × Nat)) (pi : Nat),
    (List.range n).foldl
        (fun st2 j => (st2.1 ++ [(st2.2, i, j)], st2.2 + 1)) (acc, pi)
      = (acc ++ (List.range n).map (fun j => (pi + j, i, j)), pi + n) := by
  intro n
  induction n with
  | zero => simp
  | succ n ih =>
    intro acc pi
    rw [List.range_succ]
    simp [List.foldl_append, ih]
    omega

/-- The outer loop of the constructor over the enumerated sources. -/
theorem outer_fold : ∀ (ds : List (DataSource α β)) (k : Nat)
    (acc : List (Nat × Nat × Nat)) (pi : Nat),
    (List.enumFrom k ds).foldl
        (fun st isrc =>
          (List.range isrc.2.len).foldl
            (fun st2 j => (st2.1 ++ [(st2.2, isrc.1, j)], st2.2 + 1)) st)
        (acc, pi)
      = (acc ++ addrChunks ds k pi, pi + sumLen ds) := by
  intro ds
  induction ds with
  | nil => simp [addrChunks, sumLen, List.enumFrom]
  | cons s rest ih =>
    intro k acc pi
    simp only [List.enumFrom, List.foldl_cons]
    rw [inner_fold]
    rw [ih]
    simp [addrChunks, sumLen]
    omega

/-- The address map built by `HashGluedCloud.new` is exactly the in-order
concatenation of per-source chunks. -/
theorem new_addresses (ds : List (DataSource α β)) :
    (HashGluedCloud.new ds).addresses = addrChunks ds 0 0 := by
  show (ds.enum.foldl _ ([], 0)).1 = _
  rw [show ds.enum = List.enumFrom 0 ds from rfl]
  rw [outer_fold]
  simp

theorem hashGet_append (l1 l2 : List (Nat × Nat × Nat)) (pn : Nat) :
    hashGet (l1 ++ l2) pn
      = match hashGet l1 pn with
        | some v => some v
        | none => hashGet l2 pn := by
  induction l1 with
  | nil => simp [hashGet]
  | cons kv rest ih =>
    obtain ⟨k, v⟩ := kv
    by_cases h : pn = k
    · simp [hashGet, h]
    · simp [hashGet, h, ih]

/-- Lookup inside one source's chunk of consecutive keys. -/
theorem hashGet_chunk (i : Nat) : ∀ (n pi pn : Nat),
    hashGet ((List.range n).map (fun j => (pi + j, i, j))) pn
      = if pi ≤ pn ∧ pn < pi + n then some (i, pn - pi) else none := by
  intro n
  induction n with
  | zero =>
    intro pi pn
    have h : ¬ (pi ≤ pn ∧ pn < pi) := by omega
    simp [hashGet, h]
  | succ n ih =>
    intro pi pn
    rw [List.range_succ]
    simp only [List.map_append, List.map_cons, List.map_nil]
    rw [hashGet_append, ih]
    by_cases h1 : pi ≤ pn ∧ pn < pi + n
    · obtain ⟨ha, hb⟩ := h1
      have hc : pn < pi + (n + 1) := by omega
      simp [ha, hb, hc]
    · by_cases h2 : pn = pi + n
      · have hsub : pn - pi = n := by omega
        have hc1 : pi ≤ pn := by omega
        have hc2 : pn < pi + (n + 1) := by omega
        simp [h1, hashGet, h2, hsub, hc1, hc2]
      · have hc : ¬ (pi ≤ pn ∧ pn < pi + (n + 1)) := by omega
        simp [h1, hashGet, h2, hc]

/-- Lookup across the whole chunk list agrees with specification-side
resolution, shifted by the starting ordinal and starting global index. -/
theorem hashGet_addrChunks : ∀ (ds : List (DataSource α β)) (k pi pn : Nat),
    hashGet (addrChunks ds k pi) pn
      = if pi ≤ pn then (resolveAt ds (pn - pi)).map (fun r => (k + r.1, r.2))
        else none := by
  intro ds
  induction ds with
  | nil =>
    intro k pi pn
    simp only [addrChunks, resolveAt, hashGet, Option.map_none]
    split <;> rfl
  | cons s rest ih =>
    intro k pi pn
    simp only [addrChunks]
    rw [hashGet_append, hashGet_chunk]
    by_cases h1 : pi ≤ pn ∧ pn < pi + s.len
    · have hlt : pn - pi < s.len := by omega
      simp [h1, resolveAt, h1.1, hlt]
    · rw [ih]
      by_cases h2 : pi ≤ pn
      · have hge : ¬ (pn - pi < s.len) := by omega
        have harg : pn - (pi + s.len) = pn - pi - s.len := by omega
        have h3 : pi + s.len ≤ pn := by omega
        have hlt3 : ¬ (pn < pi + s.len) := by omega
        cases hres : resolveAt rest (pn - pi - s.len) with
        | none => simp [h1, h2, h3, hlt3, harg, resolveAt, hge, hres]
        | some r =>
          simp [h1, h2, h3, hlt3, harg, resolveAt, hge, hres]
          omega
      · have h3 : ¬ (pi + s.len ≤ pn) := by omega
        simp [h1, h2, h3]

end AddressCharacterization

section Resolution

variable {α β : Type}

theorem resolveAt_none_of_ge : ∀ (ds : List (DataSource α β)) (pn : Nat),
    sumLen ds ≤ pn → resolveAt ds pn = none := by
  intro ds
  induction ds with
  | nil => intro pn _; rfl
  | cons s rest ih =>
    intro pn h
    simp only [sumLen] at h
    have hnl : ¬ (pn < s.len) := by omega
    simp [resolveAt, hnl, ih (pn - s.len) (by omega)]

theorem resolveAt_offset : ∀ (ds : List (DataSource α β)) (k : Nat) (hk : k < ds.length) (j : Nat),
    j < (ds.get ⟨k, hk⟩).len → resolveAt ds (offsetOf ds k + j) = some (k, j) := by
  intro ds
  induction ds with
  | nil => intro k hk; exact absurd hk (by simp)
  | cons s rest ih =>
    intro k hk j hj
    cases k with
    | zero =>
      have hj0 : j < s.len := by simpa using hj
      simp [offsetOf, resolveAt, hj0]
    | succ k =>
      have hk2 : k < rest.length := by simpa using hk
      have hj2 : j < (rest.get ⟨k, hk2⟩).len := by simpa using hj
      have hge : ¬ (s.len + offsetOf rest k + j < s.len) := by omega
      have hsub : s.len + offsetOf rest k + j - s.len = offsetOf rest k + j := by omega
      simp [offsetOf, resolveAt, hge, hsub, ih k hk2 j hj2]

theorem resolveAt_lt : ∀ (ds : List (DataSource α β)) (pn : Nat), pn < sumLen ds →
    ∃ k j, resolveAt ds pn = some (k, j) ∧
      ∃ hk : k < ds.length, j < (ds.get ⟨k, hk⟩).len ∧ pn = offsetOf ds k + j := by
  intro ds
  induction ds with
  | nil => intro pn h; simp [sumLen] at h
  | cons s rest ih =>
    intro pn h
    by_cases hlt : pn < s.len
    · refine ⟨0, pn, ?_, ?_⟩
      · simp [resolveAt, hlt]
      · refine ⟨by simp, ?_, ?_⟩
        · simpa using hlt
        · simp [offsetOf]
    · have h2 : pn - s.len < sumLen rest := by
        simp only [sumLen] at h
        omega
      obtain ⟨k, j, hres, hk, hj, heq⟩ := ih (pn - s.len) h2
      refine ⟨k + 1, j, ?_, ?_⟩
      · simp [resolveAt, hlt, hres]
      · refine ⟨by simpa using hk, ?_, ?_⟩
        · simpa using hj
        · simp only [offsetOf]
          omega

theorem foldl_len (ds : List (DataSource α β)) : ∀ (a : Nat),
    ds.foldl (fun acc mm => acc + mm.len) a = a + sumLen ds := by
  induction ds with
  | nil => intro a; simp [sumLen]
  | cons s rest ih =>
    intro a
    simp only [List.foldl_cons, sumLen, ih]
    omega

theorem new_len (ds : List (DataSource α β)) :
    (HashGluedCloud.new ds).len = sumLen ds := by
  show ds.foldl _ 0 = _
  rw [foldl_len]
  omega

theorem new_get_address (ds : List (DataSource α β)) (pn : Nat) :
    (HashGluedCloud.new ds).get_address pn
      = match resolveAt ds pn with
        | some r => .ok r
        | none => .error (.DataAccessError pn "address not found") := by
  show (match hashGet (HashGluedCloud.new ds).addresses pn with
        | some ij => Except.ok ij
        | none => Except.error (PointCloudError.DataAccessError pn "address not found")) = _
  rw [new_addresses, hashGet_addrChunks]
  simp only [Nat.zero_le, if_true, Nat.sub_zero, Nat.zero_add]
  cases resolveAt ds pn <;> simp

end Resolution

section GluedCloudClaims

variable {α β : Type}

theorem source_point_eq (ds : List (DataSource α β)) (k : Nat) (hk : k < ds.length) (j : Nat) :
    (HashGluedCloud.new ds).source_point k j = (ds.get ⟨k, hk⟩).point j := by
  show (match ds.get? k with
        | some src => src.point j
        | none => Except.error (PointCloudError.DataAccessError k "source ordinal out of range")) = _
  rw [List.get?_eq_get hk]

theorem source_label_eq (ds : List (DataSource α β)) (k : Nat) (hk : k < ds.length) (j : Nat) :
    (HashGluedCloud.new ds).source_label k j = (ds.get ⟨k, hk⟩).label j := by
  show (match ds.get? k with
        | some src => src.label j
        | none => Except.error (PointCloudError.DataAccessError k "source ordinal out of range")) = _
  rw [List.get?_eq_get hk]

theorem DataSource.point_ok (s : DataSource α β) (j : Nat) (hj : j < s.len) :
    ∃ p, s.point j = .ok p := by
  refine ⟨s.points.get ⟨j, hj⟩, ?_⟩
  show (match s.points.get? j with
        | some p => Except.ok p
        | none => Except.error (PointCloudError.DataAccessError j "point out of range")) = _
  rw [List.get?_eq_get hj]

theorem DataSource.label_ok (s : DataSource α β) (j : Nat)
    (hw : s.labels.length = s.points.length) (hj : j < s.len) :
    ∃ l, s.label j = .ok l := by
  have hj2 : j < s.labels.length := by
    unfold DataSource.len at hj
    omega
  refine ⟨s.labels.get ⟨j, hj2⟩, ?_⟩
  show (match s.labels.get? j with
        | some l => Except.ok l
        | none => Except.error (PointCloudError.DataAccessError j "label out of range")) = _
  rw [List.get?_eq_get hj2]

/-- C1: a glued cloud built from an ordered list of sources has length the
sum of the source lengths; the address map sends the global index
`offsetOf ds k + j` to `(k, j)` for every source ordinal `k` and in-range
local index `j`; `point` at that global index returns exactly what reading
source `k` at local index `j` directly returns; and every global index
below the total length resolves to such a pair. -/
theorem glued_cloud_concat_correct (ds : List (DataSource α β)) (k j : Nat)
    (hk : k < ds.length) (hj : j < (ds.get ⟨k, hk⟩).len) :
    (HashGluedCloud.new ds).len = sumLen ds
    ∧ (HashGluedCloud.new ds).get_address (offsetOf ds k + j) = .ok (k, j)
    ∧ (HashGluedCloud.new ds).point (offsetOf ds k + j) = (ds.get ⟨k, hk⟩).point j
    ∧ (∀ pn, pn < (HashGluedCloud.new ds).len →
        ∃ k2 j2, (HashGluedCloud.new ds).get_address pn = .ok (k2, j2)
          ∧ ∃ hk2 : k2 < ds.length, j2 < (ds.get ⟨k2, hk2⟩).len
              ∧ pn = offsetOf ds k2 + j2) := by
  have haddr : (HashGluedCloud.new ds).get_address (offsetOf ds k + j) = .ok (k, j) := by
    rw [new_get_address, resolveAt_offset ds k hk j hj]
  refine ⟨new_len ds, haddr, ?_, ?_⟩
  · show (match (HashGluedCloud.new ds).get_address (offsetOf ds k + j) with
          | .ok (i, j) => (HashGluedCloud.new ds).source_point i j
          | .error e => .error e) = _
    rw [haddr]
    exact source_point_eq ds k hk j
  · intro pn hpn
    rw [new_len] at hpn
    obtain ⟨k2, j2, hres, hk2, hj2, heq⟩ := resolveAt_lt ds pn hpn
    exact ⟨k2, j2, by rw [new_get_address, hres], hk2, hj2, heq⟩

/-- Concrete pair of sources used to witness the glued-cloud theorems. -/
def dsW : List (DataSource Nat Nat) :=
  [⟨[10, 20], [some 1, none], 2⟩, ⟨[30, 40, 50], [some 2, some 3, some 4], 2⟩]

theorem glued_cloud_concat_correct_witness :
    (HashGluedCloud.new dsW).len = sumLen dsW
    ∧ (HashGluedCloud.new dsW).get_address (offsetOf dsW 1 + 2) = .ok (1, 2)
    ∧ (HashGluedCloud.new dsW).point (offsetOf dsW 1 + 2) = (dsW.get ⟨1, by decide⟩).point 2
    ∧ (∀ pn, pn < (HashGluedCloud.new dsW).len →
        ∃ k2 j2, (HashGluedCloud.new dsW).get_address pn = .ok (k2, j2)
          ∧ ∃ hk2 : k2 < dsW.length, j2 < (dsW.get ⟨k2, hk2⟩).len
              ∧ pn = offsetOf dsW k2 + j2) :=
  glued_cloud_concat_correct dsW 1 2 (by decide) (by decide)

end GluedCloudClaims

section GluedCloudErrors

variable {α β : Type}

theorem loop_ok {S : Type} (ds : List (DataSource α β))
    (addFn : S → Except PointCloudError (Option β) → S) :
    ∀ (pns : List Nat) (s : S), (∀ q ∈ pns, q < sumLen ds) →
      ∃ out, (HashGluedCloud.new ds).label_summary_loop addFn pns s = .ok out := by
  intro pns
  induction pns with
  | nil => intro s _; exact ⟨s, rfl⟩
  | cons pn rest ih =>
    intro s hall
    have hpn : pn < sumLen ds := hall pn (by simp)
    obtain ⟨k, j, hres, _⟩ := resolveAt_lt ds pn hpn
    have hga : (HashGluedCloud.new ds).get_address pn = .ok (k, j) := by
      rw [new_get_address, hres]
    obtain ⟨out, hout⟩ :=
      ih (addFn s ((HashGluedCloud.new ds).source_label k j))
        (fun q hq => hall q (by simp [hq]))
    refine ⟨out, ?_⟩
    rw [HashGluedCloud.label_summary_loop, hga]
    exact hout

theorem loop_err {S : Type} (ds : List (DataSource α β))
    (addFn : S → Except PointCloudError (Option β) → S) :
    ∀ (pns : List Nat) (s : S), (∃ q ∈ pns, sumLen ds ≤ q) →
      ∃ q, q ∈ pns ∧ sumLen ds ≤ q ∧
        (HashGluedCloud.new ds).label_summary_loop addFn pns s
          = .error (.DataAccessError q "address not found") := by
  intro pns
  induction pns with
  | nil => intro s h; simp at h
  | cons pn rest ih =>
    intro s hex
    by_cases hpn : pn < sumLen ds
    · obtain ⟨k, j, hres, _⟩ := resolveAt_lt ds pn hpn
      have hga : (HashGluedCloud.new ds).get_address pn = .ok (k, j) := by
        rw [new_get_address, hres]
      obtain ⟨q, hqmem, hq⟩ := hex
      have hqrest : q ∈ rest := by
        rcases List.mem_cons.mp hqmem with rfl | h
        · omega
        · exact h
      obtain ⟨q2, hmem2, hq2, hloop⟩ :=
        ih (addFn s ((HashGluedCloud.new ds).source_label k j)) ⟨q, hqrest, hq⟩
      refine ⟨q2, by simp [hmem2], hq2, ?_⟩
      rw [HashGluedCloud.label_summary_loop, hga]
      exact hloop
    · have hnone : resolveAt ds pn = none := resolveAt_none_of_ge ds pn (by omega)
      refine ⟨pn, by simp, by omega, ?_⟩
      rw [HashGluedCloud.label_summary_loop, new_get_address, hnone]

/-- C6: for a glued cloud the operations `point`, `label` and
`label_summary` fail with a `DataAccessError` carrying the offending index
and the reason string exactly when a queried global index is outside
`[0, len())`; when every queried index is in range (and the sources are
well formed, with one label slot per point) resolution never fails and all
three operations succeed. -/
theorem glued_cloud_error_condition (ds : List (DataSource α β))
    (hwf : ∀ s ∈ ds, s.labels.length = s.points.length)
    (pn : Nat) (S : Type) (dflt : S)
    (addFn : S → Except PointCloudError (Option β) → S) (pns : List Nat) :
    ((HashGluedCloud.new ds).len ≤ pn →
      (HashGluedCloud.new ds).point pn
          = .error (.DataAccessError pn "address not found")
        ∧ (HashGluedCloud.new ds).label pn
          = .error (.DataAccessError pn "address not found")
        ∧ (pn ∈ pns →
            ∃ q, q ∈ pns ∧ (HashGluedCloud.new ds).len ≤ q
              ∧ (HashGluedCloud.new ds).label_summary dflt addFn pns
                = .error (.DataAccessError q "address not found")))
    ∧ (pn < (HashGluedCloud.new ds).len →
        (∃ v, (HashGluedCloud.new ds).point pn = .ok v)
        ∧ (∃ l, (HashGluedCloud.new ds).label pn = .ok l))
    ∧ ((∀ q ∈ pns, q < (HashGluedCloud.new ds).len) →
        ∃ out, (HashGluedCloud.new ds).label_summary dflt addFn pns = .ok out) := by
  have hlen : (HashGluedCloud.new ds).len = sumLen ds := new_len ds
  refine ⟨?_, ?_, ?_⟩
  · intro hge
    rw [hlen] at hge
    have hnone : resolveAt ds pn = none := resolveAt_none_of_ge ds pn hge
    refine ⟨?_, ?_, ?_⟩
    · show (match (HashGluedCloud.new ds).get_address pn with
            | .ok (i, j) => (HashGluedCloud.new ds).source_point i j
            | .error e => .error e) = _
      rw [new_get_address, hnone]
    · show (match (HashGluedCloud.new ds).get_address pn with
            | .ok (i, j) => (HashGluedCloud.new ds).source_label i j
            | .error e => .error e) = _
      rw [new_get_address, hnone]
    · intro hmem
      obtain ⟨q, hqmem, hq, hloop⟩ :=
        loop_err ds addFn pns dflt ⟨pn, hmem, hge⟩
      exact ⟨q, hqmem, by omega, hloop⟩
  · intro hlt
    rw [hlen] at hlt
    obtain ⟨k, j, hres, hk, hj, _⟩ := resolveAt_lt ds pn hlt
    have hga : (HashGluedCloud.new ds).get_address pn = .ok (k, j) := by
      rw [new_get_address, hres]
    constructor
    · obtain ⟨p, hp⟩ := DataSource.point_ok (ds.get ⟨k, hk⟩) j hj
      refine ⟨p, ?_⟩
      show (match (HashGluedCloud.new ds).get_address pn with
            | .ok (i, j) => (HashGluedCloud.new ds).source_point i j
            | .error e => .error e) = _
      rw [hga]
      show (HashGluedCloud.new ds).source_point k j = _
      rw [source_point_eq ds k hk j, hp]
    · obtain ⟨l, hl⟩ :=
        DataSource.label_ok (ds.get ⟨k, hk⟩) j (hwf _ (List.get_mem ds k hk)) hj
      refine ⟨l, ?_⟩
      show (match (HashGluedCloud.new ds).get_address pn with
            | .ok (i, j) => (HashGluedCloud.new ds).source_label i j
            | .error e => .error e) = _
      rw [hga]
      show (HashGluedCloud.new ds).source_label k j = _
      rw [source_label_eq ds k hk j, hl]
  · intro hall
    exact loop_ok ds addFn pns dflt (fun q hq => by
      have := hall q hq
      omega)

theorem glued_cloud_error_condition_witness :
    ((HashGluedCloud.new dsW).len ≤ 7 →
      (HashGluedCloud.new dsW).point 7
          = .error (.DataAccessError 7 "address not found")
        ∧ (HashGluedCloud.new dsW).label 7
          = .error (.DataAccessError 7 "address not found")
        ∧ (7 ∈ [1, 7] →
            ∃ q, q ∈ [1, 7] ∧ (HashGluedCloud.new dsW).len ≤ q
              ∧ (HashGluedCloud.new dsW).label_summary (0 : Nat) (fun s _ => s + 1) [1, 7]
                = .error (.DataAccessError q "address not found")))
    ∧ (7 < (HashGluedCloud.new dsW).len →
        (∃ v, (HashGluedCloud.new dsW).point 7 = .ok v)
        ∧ (∃ l, (HashGluedCloud.new dsW).label 7 = .ok l))
    ∧ ((∀ q ∈ [1, 7], q < (HashGluedCloud.new dsW).len) →
        ∃ out, (HashGluedCloud.new dsW).label_summary (0 : Nat) (fun s _ => s + 1) [1, 7] = .ok out) :=
  glued_cloud_error_condition dsW (by decide) 7 Nat 0 (fun s _ => s + 1) [1, 7]

end GluedCloudErrors

section GluedCloudMisc

variable {α β : Type}

/-- C7: `is_empty()` on a glued cloud with zero sources is `false`; with at
least one source it is `true` exactly when every source reports empty. -/
theorem glued_is_empty_cases (ds : List (DataSource α β)) (hne : ds ≠ []) :
    (HashGluedCloud.new ([] : List (DataSource α β))).is_empty = false
    ∧ ((HashGluedCloud.new ds).is_empty = true ↔ ∀ s ∈ ds, s.is_empty = true) := by
  refine ⟨rfl, ?_⟩
  show (if ds.isEmpty then false else ds.all (fun m => m.is_empty)) = true ↔ _
  cases ds with
  | nil => exact absurd rfl hne
  | cons s rest => simp [List.all_eq_true]

theorem glued_is_empty_cases_witness :
    (HashGluedCloud.new ([] : List (DataSource Nat Nat))).is_empty = false
    ∧ ((HashGluedCloud.new dsW).is_empty = true ↔ ∀ s ∈ dsW, s.is_empty = true) :=
  glued_is_empty_cases dsW (List.cons_ne_nil _ _)

/-- C9: `dim()` reads the first source unconditionally, so it is defined
exactly when at least one source exists: for zero sources the Rust indexing
panics (modelled as `none`), otherwise it returns the first source's
dimension. -/
theorem glued_dim_needs_source (ds : List (DataSource α β)) :
    ((HashGluedCloud.new ds).dim = none ↔ ds = [])
    ∧ (∀ s rest, ds = s :: rest → (HashGluedCloud.new ds).dim = some s.dim) := by
  constructor
  · cases ds with
    | nil => simp [HashGluedCloud.dim, HashGluedCloud.new]
    | cons s rest => simp [HashGluedCloud.dim, HashGluedCloud.new]
  · rintro s rest rfl
    rfl

theorem glued_dim_needs_source_witness :
    ((HashGluedCloud.new dsW).dim = none ↔ dsW = [])
    ∧ (HashGluedCloud.new dsW).dim = some 2 :=
  ⟨(glued_dim_needs_source dsW).1, (glued_dim_needs_source dsW).2 _ _ rfl⟩

theorem addrChunks_keys : ∀ (ds : List (DataSource α β)) (k pi : Nat),
    (addrChunks ds k pi).map (fun kv => kv.1) = List.range' pi (sumLen ds) := by
  intro ds
  induction ds with
  | nil => intro k pi; rfl
  | cons s rest ih =>
    intro k pi
    simp only [addrChunks, List.map_append]
    have h1 : ((List.range s.len).map (fun j => (pi + j, k, j))).map
          (fun kv : Nat × Nat × Nat => kv.1)
        = List.range' pi s.len := by
      rw [List.map_map, List.range'_eq_map_range]
      rfl
    rw [h1, ih]
    rw [show sumLen (s :: rest) = sumLen rest + s.len from by
      simp only [sumLen]
      omega]
    have h2 := List.range'_append pi s.len (sumLen rest) 1
    rw [Nat.one_mul] at h2
    exact h2

theorem new_reference_indexes (ds : List (DataSource α β)) :
    (HashGluedCloud.new ds).reference_indexes = List.range (sumLen ds) := by
  show (HashGluedCloud.new ds).addresses.map _ = _
  rw [new_addresses, addrChunks_keys, List.range_eq_range']

/-- C10: the reference indexes of a glued cloud of total length `L` contain
every global index in `0..L` exactly once (and no other index), so their
number equals `len()`. -/
theorem glued_reference_indexes_exact (ds : List (DataSource α β)) :
    (HashGluedCloud.new ds).reference_indexes.length = (HashGluedCloud.new ds).len
    ∧ ∀ i : Nat, List.count i (HashGluedCloud.new ds).reference_indexes
        = if i < (HashGluedCloud.new ds).len then 1 else 0 := by
  have hri := new_reference_indexes ds
  have hlen := new_len ds
  constructor
  · rw [hri, hlen, List.length_range]
  · intro i
    rw [hri, hlen]
    by_cases h : i < sumLen ds
    · rw [if_pos h]
      exact List.count_eq_one_of_mem (List.nodup_range _) (List.mem_range.mpr h)
    · rw [if_neg h]
      exact List.count_eq_zero_of_not_mem (fun hmem => h (List.mem_range.mp hmem))

end GluedCloudMisc

/-!
Summaries (`pointcloud/src/summaries/mod.rs`).  The embeddings reproduce
the source exactly, including three behaviors the spec flags: `add` of the
small-categorical summary appends only when a match WAS found, its
`combine` merges only the item lists (not the `nones`/`errors` counters),
and every `errors()` accessor returns the `nones` field.
-/

/-- Embedding of the `SmallCatSummary` struct; fields as in the source. -/
structure SmallCatSummary (T : Type) where
  items : List (T × Nat)
  nones : Nat
  errors : Nat
  deriving Repr, DecidableEq

namespace SmallCatSummary

variable {T : Type} [DecidableEq T]

/-- Embedding of `Default::default()` for `SmallCatSummary`. -/
def default : SmallCatSummary T := ⟨[], 0, 0⟩

/-- The mutable scan loop of `add`/`combine`: add `inc` to the count of
the first stored value equal to `val`; the boolean is the
`added_to_existing` flag. -/
def scanIncr : List (T × Nat) → T → Nat → (List (T × Nat) × Bool)
  | [], _, _ => ([], false)
  | (sv, c) :: rest, val, inc =>
    if val = sv then ((sv, c + inc) :: rest, true)
    else
      let r := scanIncr rest val inc
      ((sv, c) :: r.1, r.2)

/-- Embedding of `SmallCatSummary::add`.  Note the source's condition: it
pushes `(val, 1)` when `added_to_existing` IS set, and pushes nothing when
no match was found. -/
def add (s : SmallCatSummary T) (v : Except PointCloudError (Option T)) :
    SmallCatSummary T :=
  match v with
  | .ok (some val) =>
    let r := scanIncr s.items val 1
    if r.2 then { s with items := r.1 ++ [(val, 1)] }
    else { s with items := r.1 }
  | .ok none => { s with nones := s.nones + 1 }
  | .error _ => { s with errors := s.errors + 1 }

/-- Embedding of `SmallCatSummary::combine`: merge only the item lists
(the `nones` and `errors` fields of `other` are not read). -/
def combine (s other : SmallCatSummary T) : SmallCatSummary T :=
  other.items.foldl
    (fun acc vc =>
      let r := scanIncr acc.items vc.1 vc.2
      if r.2 then { acc with items := r.1 }
      else { acc with items := r.1 ++ [vc] })
    s

/-- Embedding of the `count()` accessor: the sum of all stored counts. -/
def countM (s : SmallCatSummary T) : Nat :=
  (s.items.map (fun ab => ab.2)).foldl (fun a c => a + c) 0

/-- Embedding of the `nones()` accessor. -/
def nonesM (s : SmallCatSummary T) : Nat := s.nones

/-- Embedding of the `errors()` accessor, which in the source returns
`self.nones`. -/
def errorsM (s : SmallCatSummary T) : Nat := s.nones

end SmallCatSummary

/-- Embedding of the `VecSummary` struct; `f32` components are modelled as
exact rationals. -/
structure VecSummary where
  moment1 : List ℚ
  moment2 : List ℚ
  count : Nat
  nones : Nat
  errors : Nat
  deriving Repr, DecidableEq

namespace VecSummary

/-- Embedding of `Default::default()` for `VecSummary`. -/
def default : VecSummary := ⟨[], [], 0, 0, 0⟩

/-- Embedding of `VecSummary::add`: once the width is fixed by a first
successful add (which extends the moments but does not touch `count`),
an equal-width vector is accumulated into both moments, and a
mismatched-width vector only increments the `errors` field. -/
def add (s : VecSummary) (v : Except PointCloudError (Option (List ℚ))) :
    VecSummary :=
  match v with
  | .ok (some val) =>
    if !s.moment1.isEmpty then
      if s.moment1.length = val.length then
        { s with moment1 := List.zipWith (fun m x => m + x) s.moment1 val,
                 moment2 := List.zipWith (fun m x => m + x * x) s.moment2 val,
                 count := s.count + 1 }
      else { s with errors := s.errors + 1 }
    else
      { s with moment1 := s.moment1 ++ val,
               moment2 := s.moment2 ++ val.map (fun x => x * x) }
  | .ok none => { s with nones := s.nones + 1 }
  | .error _ => { s with errors := s.errors + 1 }

/-- Embedding of `VecSummary::combine`: `iter_mut().zip(..)` adds the
other's moments into the overlapping prefix and keeps the remainder of
self's moments unchanged; the counters are summed. -/
def combine (s other : VecSummary) : VecSummary :=
  { moment1 := List.zipWith (fun x y => x + y) s.moment1 other.moment1
      ++ s.moment1.drop other.moment1.length,
    moment2 := List.zipWith (fun x y => x + y) s.moment2 other.moment2
      ++ s.moment2.drop other.moment2.length,
    count := s.count + other.count,
    nones := s.nones + other.nones,
    errors := s.errors + other.errors }

/-- Embedding of the `count()` accessor. -/
def countM (s : VecSummary) : Nat := s.count

/-- Embedding of the `nones()` accessor. -/
def nonesM (s : VecSummary) : Nat := s.nones

/-- Embedding of the `errors()` accessor, which in the source returns
`self.nones`. -/
def errorsM (s : VecSummary) : Nat := s.nones

end VecSummary

/-- Embedding of the entry update `*items.entry(key).or_insert(0) += c` on
the string frequency table, with the hash map modelled as its entry list. -/
def entryAdd : List (String × Nat) → String → Nat → List (String × Nat)
  | [], key, c => [(key, c)]
  | (k, v) :: rest, key, c =>
    if key = k then (k, v + c) :: rest
    else (k, v) :: entryAdd rest key c

/-- Embedding of the `StringSummary` struct. -/
structure StringSummary where
  items : List (String × Nat)
  nones : Nat
  errors : Nat
  deriving Repr, DecidableEq

namespace StringSummary

/-- Embedding of `Default::default()` for `StringSummary`. -/
def default : StringSummary := ⟨[], 0, 0⟩

/-- Embedding of `StringSummary::add`. -/
def add (s : StringSummary) (v : Except PointCloudError (Option String)) :
    StringSummary :=
  match v with
  | .ok (some val) => { s with items := entryAdd s.items val 1 }
  | .ok none => { s with nones := s.nones + 1 }
  | .error _ => { s with errors := s.errors + 1 }

/-- Embedding of `StringSummary::combine`: counters summed, then the
other's entries folded in. -/
def combine (s other : StringSummary) : StringSummary :=
  other.items.foldl
    (fun acc vc => { acc with items := entryAdd acc.items vc.1 vc.2 })
    { s with nones := s.nones + other.nones, errors := s.errors + other.errors }

/-- Embedding of the `count()` accessor. -/
def countM (s : StringSummary) : Nat :=
  (s.items.map (fun ab => ab.2)).foldl (fun a c => a + c) 0

/-- Embedding of the `nones()` accessor. -/
def nonesM (s : StringSummary) : Nat := s.nones

/-- Embedding of the `errors()` accessor, which in the source returns
`self.nones`. -/
def errorsM (s : StringSummary) : Nat := s.nones

end StringSummary

/-- C4 (counterexample): feeding [A, B, A, None, A] (A = 0, B = 1) to a
fresh small-categorical summary through the source's `add`: because `add`
pushes a new pair only when `added_to_existing` was set, no value is ever
stored starting from an empty list, so the result reports no items,
`count() = 0` and `nones() = 1` instead of the claimed count 4 with
per-category counts A = 3, B = 1. -/
theorem small_cat_scenario_fails :
    (List.foldl SmallCatSummary.add SmallCatSummary.default
        ([Except.ok (some 0), Except.ok (some 1), Except.ok (some 0),
          Except.ok none, Except.ok (some 0)]
          : List (Except PointCloudError (Option Nat)))).items = []
    ∧ (List.foldl SmallCatSummary.add SmallCatSummary.default
        ([Except.ok (some 0), Except.ok (some 1), Except.ok (some 0),
          Except.ok none, Except.ok (some 0)]
          : List (Except PointCloudError (Option Nat)))).countM = 0
    ∧ (List.foldl SmallCatSummary.add SmallCatSummary.default
        ([Except.ok (some 0), Except.ok (some 1), Except.ok (some 0),
          Except.ok none, Except.ok (some 0)]
          : List (Except PointCloudError (Option Nat)))).nonesM = 1 := by
  decide

/-- C2 (counterexample): the partition/combine law fails on the source.
Aggregating the one-lookup sequence [Ok(None)] sequentially gives
`nones() = 1`; partitioning it into [] and [Ok(None)], aggregating each
part in its own fresh summary and combining gives `nones() = 0`, because
`SmallCatSummary::combine` never reads the other summary's `nones` and
`errors` counters. -/
theorem summary_partition_law_fails :
    ((SmallCatSummary.default : SmallCatSummary Nat).combine
        (SmallCatSummary.default.add (Except.ok none))).nonesM = 0
    ∧ ((SmallCatSummary.default : SmallCatSummary Nat).add
        (Except.ok none)).nonesM = 1 := by
  decide

/-- C5 (counterexample): after one failed lookup is added to a fresh
summary, the internal `errors` field is 1 in every variant, yet the
`errors()` accessor returns 0 because the source returns `self.nones` from
`errors()` in all three implementations. -/
theorem errors_accessor_aliases_nones :
    ((SmallCatSummary.default : SmallCatSummary Nat).add
        (Except.error (PointCloudError.DataAccessError 0 "fail"))).errorsM = 0
    ∧ ((SmallCatSummary.default : SmallCatSummary Nat).add
        (Except.error (PointCloudError.DataAccessError 0 "fail"))).errors = 1
    ∧ (VecSummary.default.add
        (Except.error (PointCloudError.DataAccessError 0 "fail"))).errorsM = 0
    ∧ (VecSummary.default.add
        (Except.error (PointCloudError.DataAccessError 0 "fail"))).errors = 1
    ∧ (StringSummary.default.add
        (Except.error (PointCloudError.DataAccessError 0 "fail"))).errorsM = 0
    ∧ (StringSummary.default.add
        (Except.error (PointCloudError.DataAccessError 0 "fail"))).errors = 1 := by
  decide

/-- C8 (behavior at the failing input): fix the width with a first
successful add of [1]; adding the mismatched-width vector [1, 2] leaves
both moments and `count` unchanged and increments the internal `errors`
field to 1, but the `errors()` accessor still reports 0 (it returns the
`nones` field); and a subsequent well-shaped add of [5] is still
processed. -/
theorem vec_summary_mismatch_behavior :
    ((VecSummary.default.add (Except.ok (some [1]))).add
        (Except.ok (some [1, 2]))).moment1 = [1]
    ∧ ((VecSummary.default.add (Except.ok (some [1]))).add
        (Except.ok (some [1, 2]))).moment2 = [1]
    ∧ ((VecSummary.default.add (Except.ok (some [1]))).add
        (Except.ok (some [1, 2]))).count = 0
    ∧ ((VecSummary.default.add (Except.ok (some [1]))).add
        (Except.ok (some [1, 2]))).errors = 1
    ∧ ((VecSummary.default.add (Except.ok (some [1]))).add
        (Except.ok (some [1, 2]))).errorsM = 0
    ∧ (((VecSummary.default.add (Except.ok (some [1]))).add
        (Except.ok (some [1, 2]))).add (Except.ok (some [5]))).moment1 = [6]
    ∧ (((VecSummary.default.add (Except.ok (some [1]))).add
        (Except.ok (some [1, 2]))).add (Except.ok (some [5]))).moment2 = [26]
    ∧ (((VecSummary.default.add (Except.ok (some [1]))).add
        (Except.ok (some [1, 2]))).add (Except.ok (some [5]))).count = 1 := by
  norm_num [VecSummary.add, VecSummary.default, VecSummary.errorsM]

/-!
The bounded coverage-index plugin (`goko/src/plugins/utils.rs`).  The cover
tree itself is an external collaborator (its sources are not part of the
analysed code), so the node view is modelled from the spec; the plugin's
`node_component` and the bottom-up computation pass composing it are
embedded from the source.
-/

mutual
/-- Modelled from the spec: the read view of one cover-tree node.  A node
exposes its center point index, its singleton point indices and its
coverage count; a routing node additionally exposes its "nested"
self-child (same center at finer resolution) and its ordinary children.
The address indirection of the reader is modelled by holding the subtrees
directly, which is what the bottom-up scheduling contract guarantees the
plugin observes. -/
inductive CTree where
  | leaf (center : Nat) (singletons : List Nat) (coverage : Nat)
  | route (center : Nat) (singletons : List Nat) (coverage : Nat)
      (nested : CTree) (children : CForest)
  deriving DecidableEq, Repr
/-- Modelled from the spec: a list of child subtrees. -/
inductive CForest where
  | nil
  | cons (t : CTree) (ts : CForest)
  deriving DecidableEq, Repr
end

/-- The node's `coverage_count()`. -/
def CTree.coverage_count : CTree → Nat
  | .leaf _ _ cov => cov
  | .route _ _ cov _ _ => cov

mutual
/-- Embedding of `GokoCoverageIndexes::node_component` composed along the
full bottom-up pass: below the budget, a leaf stores its singletons plus
its center, and a routing node stores its singletons plus the nested
self-child's already-computed value plus each ordinary child's
already-computed value; at or above the budget the node is skipped
(`None`). -/
def node_component (max : Nat) : CTree → Option (List Nat)
  | .leaf c sg cov =>
    if cov < max then some (sg ++ [c]) else none
  | .route _ sg cov nested cs =>
    if cov < max then
      some (sg ++ (node_component max nested).getD [] ++ forest_components max cs)
    else none
/-- The indices gathered from the ordinary children via
`get_node_plugin_and` (a child with no stored value contributes nothing,
since the closure extending `indexes` is then never run). -/
def forest_components (max : Nat) : CForest → List Nat
  | .nil => []
  | .cons t ts => (node_component max t).getD [] ++ forest_components max ts
end

/-- Total coverage count of a forest of children. -/
def forestCov : CForest → Nat
  | .nil => 0
  | .cons t ts => t.coverage_count + forestCov ts

mutual
/-- Modelled from the spec: the cover-tree counting invariant — a node's
coverage count is the number of points its subtree covers: its singletons
plus its own center for a leaf, or its singletons plus the counts of the
nested self-child and the ordinary children for a routing node. -/
def wfCov : CTree → Bool
  | .leaf _ sg cov => cov == sg.length + 1
  | .route _ sg cov nested cs =>
    (cov == sg.length + nested.coverage_count + forestCov cs)
      && wfCov nested && wfForest cs
/-- The counting invariant for every tree of a forest. -/
def wfForest : CForest → Bool
  | .nil => true
  | .cons t ts => wfCov t && wfForest ts
end

mutual
/-- Every node of a tree (the node itself and all descendants). -/
def allNodes : CTree → List CTree
  | .leaf c sg cov => [CTree.leaf c sg cov]
  | .route c sg cov nested cs =>
    CTree.route c sg cov nested cs :: (allNodes nested ++ forestNodes cs)
/-- Every node of every tree of a forest. -/
def forestNodes : CForest → List CTree
  | .nil => []
  | .cons t ts => allNodes t ++ forestNodes ts
end

mutual
theorem node_comp_spec (B : Nat) : ∀ (t : CTree), wfCov t = true →
    (t.coverage_count < B →
      ∃ v, node_component B t = some v ∧ v.length = t.coverage_count)
    ∧ (B ≤ t.coverage_count → node_component B t = none)
  | .leaf c sg cov => by
    intro hwf
    have hcov : cov = sg.length + 1 := by
      simpa [wfCov] using hwf
    constructor
    · intro hlt
      refine ⟨sg ++ [c], ?_, ?_⟩
      · simp [node_component, CTree.coverage_count] at hlt ⊢
        omega
      · simp [hcov, CTree.coverage_count]
    · intro hge
      simp [CTree.coverage_count] at hge
      simp [node_component]
      omega
  | .route c sg cov nested cs => by
    intro hwf
    simp only [wfCov, Bool.and_eq_true, beq_iff_eq] at hwf
    obtain ⟨⟨hcov, hwfn⟩, hwff⟩ := hwf
    constructor
    · intro hlt
      simp only [CTree.coverage_count] at hlt
      have hnl : nested.coverage_count < B := by omega
      have hfl : forestCov cs < B := by omega
      obtain ⟨v, hv, hvl⟩ := (node_comp_spec B nested hwfn).1 hnl
      have hfc := forest_comp_spec B cs hwff hfl
      refine ⟨sg ++ (node_component B nested).getD [] ++ forest_components B cs, ?_, ?_⟩
      · simp only [node_component, CTree.coverage_count]
        rw [if_pos hlt]
      · show (sg ++ (node_component B nested).getD [] ++ forest_components B cs).length = cov
        rw [hv]
        simp only [Option.getD_some, List.length_append, hvl, hfc]
        omega
    · intro hge
      simp only [CTree.coverage_count] at hge
      simp only [node_component]
      rw [if_neg (by omega)]
theorem forest_comp_spec (B : Nat) : ∀ (f : CForest), wfForest f = true →
    forestCov f < B → (forest_components B f).length = forestCov f
  | .nil => by
    intro _ _
    rfl
  | .cons t ts => by
    intro hwf hlt
    simp only [wfForest, Bool.and_eq_true] at hwf
    obtain ⟨hwt, hwts⟩ := hwf
    simp only [forestCov] at hlt
    have ht : t.coverage_count < B := by omega
    have hts : forestCov ts < B := by omega
    obtain ⟨v, hv, hvl⟩ := (node_comp_spec B t hwt).1 ht
    have hrec := forest_comp_spec B ts hwts hts
    simp [forest_components, forestCov, hv, hvl, hrec]
end

mutual
theorem allNodes_wf : ∀ (t : CTree), wfCov t = true →
    ∀ n ∈ allNodes t, wfCov n = true
  | .leaf c sg cov => by
    intro hwf n hn
    simp only [allNodes, List.mem_singleton] at hn
    subst hn
    exact hwf
  | .route c sg cov nested cs => by
    intro hwf n hn
    have hwf2 := hwf
    simp only [wfCov, Bool.and_eq_true, beq_iff_eq] at hwf2
    obtain ⟨⟨_, hwfn⟩, hwff⟩ := hwf2
    simp only [allNodes, List.mem_cons, List.mem_append] at hn
    rcases hn with rfl | hn | hn
    · exact hwf
    · exact allNodes_wf nested hwfn n hn
    · exact forestNodes_wf cs hwff n hn
theorem forestNodes_wf : ∀ (f : CForest), wfForest f = true →
    ∀ n ∈ forestNodes f, wfCov n = true
  | .nil => by
    intro _ n hn
    simp [forestNodes] at hn
  | .cons t ts => by
    intro hwf n hn
    simp only [wfForest, Bool.and_eq_true] at hwf
    simp only [forestNodes, List.mem_append] at hn
    rcases hn with hn | hn
    · exact allNodes_wf t hwf.1 n hn
    · exact forestNodes_wf ts hwf.2 n hn
end

/-- C3: after a full bottom-up pass of the bounded coverage-index plugin
with budget `B` over a tree satisfying the cover-tree counting invariant,
every node whose coverage count is strictly below `B` holds a value with
exactly `coverage_count` point indices, and every node whose coverage
count is at least `B` holds no value. -/
theorem coverage_plugin_budget (B : Nat) (t : CTree) (hwf : wfCov t = true) :
    ∀ n ∈ allNodes t,
      (n.coverage_count < B →
        ∃ v, node_component B n = some v ∧ v.length = n.coverage_count)
      ∧ (B ≤ n.coverage_count → node_component B n = none) := by
  intro n hn
  exact node_comp_spec B n (allNodes_wf t hwf n hn)

/-- Concrete tree used to witness the plugin theorem: a routing node with
one singleton, a nested self-child and one ordinary child leaf. -/
def tW : CTree :=
  CTree.route 0 [5] 4 (CTree.leaf 0 [] 1)
    (CForest.cons (CTree.leaf 7 [8] 2) CForest.nil)

theorem coverage_plugin_budget_witness :
    ∃ v, node_component 3 (CTree.leaf 7 [8] 2) = some v
      ∧ v.length = (CTree.leaf 7 [8] 2).coverage_count :=
  (coverage_plugin_budget 3 tW (by decide) (CTree.leaf 7 [8] 2) (by decide)).1
    (by decide)
